import Mathlib

/-!
Verification development for the `cli-audio-streamer` client
(`src/client/src/lib.rs` and `src/client/src/main.rs`).

The Rust code is shallowly embedded:
* `cpal::Device` becomes `Device`, recording only what the selector ever
  queries: the fallible `name()` (`Option String`, `none` = `Err`) and the
  fallible `supported_input_configs()` reduced to its count
  (`Option ℕ`, `none` = `Err`), exactly as `lib.rs` consumes them.
* IEEE-754 floating-point values are embedded as `FpVal`: a finite value
  carried as the exact rational it denotes, plus the special values
  `inf`, `negInf` and `nan`.  Arithmetic on finite values is exact rational
  arithmetic; the comparison, clamp and integer-cast operations follow the
  IEEE / Rust semantics (NaN compares false, `as i16` saturates and maps
  NaN to 0).  Every concrete scenario checked below only involves
  dyadic rationals on which the Rust `f32`/`f64` operations are exact.
* The little-endian bit-level decoding of control datagrams
  (`byteorder::ReadBytesExt::read_f64`) and the `f64 as f32` narrowing cast
  are embedded bit-faithfully (`decodeF64`, `roundF32`).
-/

namespace AudioStreamer

/-! ## Device model (`src/client/src/lib.rs`) -/

/-- A `cpal` device as observed by `select_device` / `find_loopback_device`:
`name` models the fallible `device.name()` (`none` = `Err(_)`), and
`supportedInputConfigs` models the fallible `device.supported_input_configs()`
reduced to the number of configurations it yields (`none` = `Err(_)`). -/
structure Device where
  name : Option String
  supportedInputConfigs : Option Nat
  deriving DecidableEq

/-- Rust `device.supported_input_configs().map(|c| c.count() > 0).unwrap_or(false)`. -/
def usable (d : Device) : Bool :=
  match d.supportedInputConfigs with
  | some c => decide (0 < c)
  | none => false

/-- Exact initial-segment test used to model `str::contains`:
`leadMatches pat s` is true iff `pat` is an initial segment of `s`. -/
def leadMatches : List Char → List Char → Bool
  | [], _ => true
  | _ :: _, [] => false
  | p :: ps, c :: cs => p = c && leadMatches ps cs

/-- Substring search over character lists: true iff `pat` occurs (contiguously)
in `s`.  Models Rust `str::contains` for the ASCII marker strings used here. -/
def subSearch (pat : List Char) : List Char → Bool
  | [] => leadMatches pat []
  | c :: cs => leadMatches pat (c :: cs) || subSearch pat cs

/-- Model of Rust `String::to_lowercase` on the (ASCII) device names involved:
character-wise lowercasing. -/
def lowerChars (s : String) : List Char :=
  s.data.map Char.toLower

/-- The fixed marker list from `find_loopback_device`. -/
def loopbackNames : List String :=
  ["stereo mix", "loopback", "blackhole", "soundflower"]

/-- The per-device test performed inside the loop of `find_loopback_device`:
the name query succeeded and the lowercased name contains one of the markers.
A device whose `name()` errs is skipped (`if let Ok(name) = device.name()`). -/
def loopbackPred (d : Device) : Bool :=
  match d.name with
  | some n => loopbackNames.any fun lb => subSearch lb.data (lowerChars n)
  | none => false

/-- `find_loopback_device` from `src/client/src/lib.rs`: scan the devices in
order, return the first whose (successfully queried) lowercased name contains
a loopback marker. -/
def find_loopback_device : List Device → Option Device
  | [] => none
  | d :: rest =>
    match d.name with
    | some n =>
      if loopbackNames.any (fun lb => subSearch lb.data (lowerChars n)) then some d
      else find_loopback_device rest
    | none => find_loopback_device rest

/-- The predicate of the explicit-name arm of `select_device`:
`d.name().map(|n| n == name).unwrap_or(false) && usable`. -/
def nameMatches (target : String) (d : Device) : Bool :=
  (match d.name with
   | some n => decide (n = target)
   | none => false) && usable d

/-- `select_device` from `src/client/src/lib.rs`. -/
def select_device (devices : List Device) (device_index : Option Nat)
    (device_name : Option String) : Option Device :=
  match device_index with
  | some index => (devices[index]?).filter usable
  | none =>
    match device_name with
    | some name => devices.find? (nameMatches name)
    | none =>
      (find_loopback_device devices).orElse fun _ => devices.find? usable

/-! ## Floating-point value model -/

/-- An IEEE-754 floating-point value: a finite value carried as the exact
rational it denotes, or one of the special values.  Used for both `f32` and
`f64` values of the Rust code; arithmetic on finite values is exact (all the
concrete scenarios below only involve operations that are exact in the
corresponding IEEE format). -/
inductive FpVal where
  | finite (q : ℚ)
  | inf
  | negInf
  | nan
  deriving DecidableEq

/-- IEEE `<=` as a boolean: any comparison involving NaN is false. -/
def fle : FpVal → FpVal → Bool
  | .nan, _ => false
  | _, .nan => false
  | .negInf, _ => true
  | _, .negInf => false
  | _, .inf => true
  | .inf, _ => false
  | .finite a, .finite b => decide (a ≤ b)

/-- IEEE `<` as a boolean: any comparison involving NaN is false. -/
def flt : FpVal → FpVal → Bool
  | .nan, _ => false
  | _, .nan => false
  | .inf, _ => false
  | .negInf, .negInf => false
  | .negInf, _ => true
  | _, .inf => true
  | .finite a, .finite b => decide (a < b)
  | .finite _, .negInf => false

/-- IEEE multiplication on the embedded values (finite × finite is exact;
`0 * ∞ = NaN`, signs propagate as in IEEE-754). -/
def fmul : FpVal → FpVal → FpVal
  | .nan, _ => .nan
  | _, .nan => .nan
  | .finite a, .finite b => .finite (a * b)
  | .inf, .inf => .inf
  | .inf, .negInf => .negInf
  | .negInf, .inf => .negInf
  | .negInf, .negInf => .inf
  | .inf, .finite b =>
    if b = 0 then .nan else if 0 < b then .inf else .negInf
  | .finite a, .inf =>
    if a = 0 then .nan else if 0 < a then .inf else .negInf
  | .negInf, .finite b =>
    if b = 0 then .nan else if 0 < b then .negInf else .inf
  | .finite a, .negInf =>
    if a = 0 then .nan else if 0 < a then .negInf else .inf

/-- Rust `f32::clamp(self, lo, hi)` for the constant finite bounds used in the
pipeline: NaN propagates, `±∞` clamp to the bounds, finite values clamp
exactly. -/
def fclamp (v : FpVal) (lo hi : ℚ) : FpVal :=
  match v with
  | .nan => .nan
  | .inf => .finite hi
  | .negInf => .finite lo
  | .finite q => .finite (max lo (min q hi))

/-- Truncation toward zero of a rational, as performed by a Rust float-to-int
cast on an in-range value. -/
def truncQ (q : ℚ) : ℤ :=
  if 0 ≤ q then ⌊q⌋ else ⌈q⌉

/-- Rust `as i16` on a float: NaN casts to 0, values truncate toward zero and
saturate at the `i16` bounds, `±∞` cast to the bounds. -/
def castToI16 : FpVal → ℤ
  | .nan => 0
  | .inf => 32767
  | .negInf => -32768
  | .finite q => max (-32768) (min 32767 (truncQ q))

/-- Two's-complement little-endian byte pair of an `i16` value, modelling
`i16::to_le_bytes` (for `z` in `[-32768, 32767]`). -/
def i16ToLeBytes (z : ℤ) : List ℕ :=
  let u := (z % 65536).toNat
  [u % 256, u / 256]

/-! ## Sample pipeline (`src/client/src/main.rs`, input callbacks) -/

/-- The per-sample transform of the `F32` input callback
(`main.rs` lines 146-149): `let adjusted = (sample * vol).clamp(-1.0, 1.0);
let int_sample = (adjusted * i16::MAX as f32) as i16;`. -/
def processSampleF32 (vol sample : FpVal) : ℤ :=
  castToI16 (fmul (fclamp (fmul sample vol) (-1) 1) (.finite 32767))

/-- The per-sample transform of the `I16` input callback
(`main.rs` lines 164-167): the sample is first normalized by
`sample as f32 / i16::MAX as f32` (the division is exact in the rational
model), then processed as in the float path. -/
def processSampleI16 (vol : FpVal) (sample : ℤ) : ℤ :=
  castToI16 (fmul (fclamp (fmul (.finite ((sample : ℚ) / 32767)) vol) (-1) 1)
    (.finite 32767))

/-- The `F32` input callback body: starting from an empty buffer, append the
two little-endian bytes of each processed sample in input order; a `try_send`
is attempted iff the resulting buffer is non-empty.  Returns the buffer and
whether a send was attempted. -/
def callbackF32 (vol : FpVal) (data : List FpVal) : List ℕ × Bool :=
  let buffer := data.foldl (fun buf s => buf ++ i16ToLeBytes (processSampleF32 vol s)) []
  (buffer, !buffer.isEmpty)

/-- The `I16` input callback body, analogous to `callbackF32`. -/
def callbackI16 (vol : FpVal) (data : List ℤ) : List ℕ × Bool :=
  let buffer := data.foldl (fun buf s => buf ++ i16ToLeBytes (processSampleI16 vol s)) []
  (buffer, !buffer.isEmpty)

/-! ## Startup volume gate (`src/client/src/main.rs` lines 54-57) -/

/-- Outcome of the startup prologue of `main`: either the process exits with
code 1 at the volume-argument check (before device selection, socket setup or
stream construction), or it proceeds to device selection. -/
inductive StartupOutcome where
  | exitInvalidVolume
  | continued (dev : Option Device)
  deriving DecidableEq

/-- The guard `args.volume < 0.0 || args.volume > 1.0` of `main`. -/
def volumeGateRejects (vol : FpVal) : Bool :=
  flt vol (.finite 0) || flt (.finite 1) vol

/-- The startup prologue of `main`: the volume check runs first; only when it
passes does the process go on to select a device. -/
def startup (vol : FpVal) (devices : List Device) (device_index : Option Nat)
    (device_name : Option String) : StartupOutcome :=
  if volumeGateRejects vol then .exitInvalidVolume
  else .continued (select_device devices device_index device_name)

/-! ## Control datagram decoding (`src/client/src/main.rs` lines 117-135) -/

/-- Assemble a little-endian byte list into the natural number it denotes,
modelling how `byteorder` reads the 8-byte buffer. -/
def leBytesToNat (bs : List ℕ) : ℕ :=
  bs.foldr (fun b acc => b + 256 * acc) 0

/-- Bit-level decoding of an IEEE-754 binary64 value from its 64-bit
representation `w`, as performed by `read_f64::<LittleEndian>`:
sign bit 63, 11-bit biased exponent, 52-bit mantissa; exponent 2047 encodes
`±∞` (mantissa 0) or NaN; exponent 0 encodes subnormals
`± mantissa · 2^(-1074)`; otherwise `± (2^52 + mantissa) · 2^(exponent - 1075)`. -/
def decodeF64 (w : ℕ) : FpVal :=
  let sign : ℕ := w / 2 ^ 63 % 2
  let ex : ℕ := w / 2 ^ 52 % 2 ^ 11
  let mant : ℕ := w % 2 ^ 52
  if ex = 2047 then
    if mant = 0 then (if sign = 1 then .negInf else .inf) else .nan
  else
    let mag : ℚ :=
      if ex = 0 then (mant : ℚ) / 2 ^ 1074
      else ((((2 ^ 52 + mant) * 2 ^ (ex - 1) : ℕ)) : ℚ) / 2 ^ 1074
    if sign = 1 then .finite (-mag) else .finite mag

/-- Round-to-nearest, ties-to-even, of a rational to an integer. -/
def rne (q : ℚ) : ℤ :=
  let f := ⌊q⌋
  let r := q - (f : ℚ)
  if r < 1 / 2 then f
  else if 1 / 2 < r then f + 1
  else if f % 2 = 0 then f else f + 1

/-- `negExpAux fuel acc q` returns the least `n ≥ acc` with `1 ≤ q · 2^n`,
provided such an `n` exists within `fuel` steps. -/
def negExpAux : ℕ → ℕ → ℚ → ℕ
  | 0, acc, _ => acc
  | fuel + 1, acc, q => if 1 ≤ q * 2 ^ acc then acc else negExpAux fuel (acc + 1) q

/-- For `2^(-126) ≤ q ≤ 1`: the least `n` with `1 ≤ q · 2^n`, i.e. the
binade of `q` (`2^(-n) ≤ q < 2^(1-n)`, except `n = 0` where `q = 1`). -/
def findNegExp (q : ℚ) : ℕ :=
  negExpAux 127 0 q

/-- IEEE-754 round-to-nearest-even of a nonnegative rational to `binary32`
precision, on the domain `[0, 1]` actually reached by the program (the
narrowing `f64 as f32` cast runs only after the `[0.0, 1.0]` range check):
subnormal results are rounded on the grid `2^(-149)`, normal results on the
grid `2^(e-23)` of their binade `e = -findNegExp q`. -/
def roundF32pos (q : ℚ) : ℚ :=
  if q * 2 ^ 126 < 1 then ((rne (q * 2 ^ 149) : ℚ)) / 2 ^ 149
  else ((rne (q * 2 ^ (23 + findNegExp q)) : ℚ)) / 2 ^ (23 + findNegExp q)

/-- Round-to-nearest-even to `binary32` of any rational in `[-1, 1]`
(negative values by symmetry). -/
def roundF32 (q : ℚ) : ℚ :=
  if q < 0 then -(roundF32pos (-q)) else roundF32pos q

/-- The Rust narrowing cast `f64 as f32` on the embedded values, on the
domain reached by the program: finite values round to `binary32` precision,
special values are preserved. -/
def f64toF32 : FpVal → FpVal
  | .finite q => .finite (roundF32 q)
  | v => v

/-- One iteration of the control-listener loop on a received datagram
(`main.rs` lines 119-131): if exactly 8 bytes were received, decode them as a
little-endian `f64`; if the decoded value passes
`received_volume >= 0.0 && received_volume <= 1.0` (false for NaN), store it
narrowed to `f32`; in every other case leave the volume unchanged. -/
def controlStep (vol : FpVal) (dgram : List ℕ) : FpVal :=
  if dgram.length = 8 then
    if fle (.finite 0) (decodeF64 (leBytesToNat dgram)) &&
        fle (decodeF64 (leBytesToNat dgram)) (.finite 1) then
      f64toF32 (decodeF64 (leBytesToNat dgram))
    else vol
  else vol

/-! ## Spec-side definitions

These two definitions follow the words of the specification (section 4.4 and
claim C1), to be compared with the source-derived pipeline: normalize, multiply
by the snapshotted volume, clamp to `[-1, 1]`, scale to the signed 16-bit
range, truncate, and encode little-endian.  The "maximum magnitude of the
signed 16-bit range" of the spec is read as `i16::MAX = 32767`, the constant
the code divides by. -/

/-- Modelled from the spec: the signed 16-bit integer obtained by clamping
`s * v` to `[-1, 1]`, scaling by the signed 16-bit range and truncating. -/
def specSampleInt (v s : ℚ) : ℤ :=
  truncQ (max (-1) (min (s * v) 1) * 32767)

/-- Modelled from the spec: the little-endian 2-byte encoding emitted for a
normalized float sample `s` at snapshotted volume `v`. -/
def specSampleBytes (v s : ℚ) : List ℕ :=
  i16ToLeBytes (specSampleInt v s)

/-- The invariant of the shared Volume State: a finite `f32` value in
`[0.0, 1.0]`. -/
def inUnit (v : FpVal) : Prop :=
  ∃ q : ℚ, v = .finite q ∧ 0 ≤ q ∧ q ≤ 1

/-! ## Helper lemmas: device selection -/

/-- `d` is the first device (at position `i`) of `l` satisfying `p`. -/
def firstSuchThat (p : Device → Bool) (l : List Device) (i : ℕ) (d : Device) : Prop :=
  l[i]? = some d ∧ p d = true ∧ ∀ j, j < i → ∀ d', l[j]? = some d' → p d' = false

theorem find?_iff_firstSuchThat (p : Device → Bool) (l : List Device) (d : Device) :
    l.find? p = some d ↔ ∃ i, firstSuchThat p l i d := by
  induction l with
  | nil => simp [firstSuchThat]
  | cons x xs ih =>
    by_cases hx : p x = true
    · rw [List.find?_cons_of_pos _ hx]
      constructor
      · rintro ⟨rfl⟩
        exact ⟨0, by simp, hx, fun j hj => by omega⟩
      · rintro ⟨i, hget, hp, hmin⟩
        match i with
        | 0 => simp only [List.getElem?_cons_zero, Option.some.injEq] at hget; rw [hget]
        | i + 1 =>
          have := hmin 0 (by omega) x (by simp)
          rw [hx] at this
          exact absurd this (by simp)
    · rw [List.find?_cons_of_neg _ hx, ih]
      constructor
      · rintro ⟨i, hget, hp, hmin⟩
        refine ⟨i + 1, by simpa using hget, hp, fun j hj d' hd' => ?_⟩
        match j with
        | 0 =>
          simp only [List.getElem?_cons_zero, Option.some.injEq] at hd'
          subst hd'
          exact Bool.eq_false_iff.mpr hx
        | j + 1 =>
          exact hmin j (by omega) d' (by simpa using hd')
      · rintro ⟨i, hget, hp, hmin⟩
        match i with
        | 0 =>
          simp only [List.getElem?_cons_zero, Option.some.injEq] at hget
          subst hget
          exact absurd hp hx
        | i + 1 =>
          refine ⟨i, by simpa using hget, hp, fun j hj d' hd' => ?_⟩
          exact hmin (j + 1) (by omega) d' (by simpa using hd')

theorem find_loopback_eq_find? (l : List Device) :
    find_loopback_device l = l.find? loopbackPred := by
  induction l with
  | nil => rfl
  | cons d rest ih =>
    rw [find_loopback_device]
    cases hn : d.name with
    | none =>
      rw [List.find?_cons_of_neg _ (by simp [loopbackPred, hn]), ih]
    | some n =>
      by_cases hm : (loopbackNames.any fun lb => subSearch lb.data (lowerChars n)) = true
      · simp only [hn, if_pos hm]
        rw [List.find?_cons_of_pos _ (by simp [loopbackPred, hn, hm])]
      · simp only [hn, if_neg hm]
        rw [ih, List.find?_cons_of_neg _ (by simp only [loopbackPred, hn]; exact hm)]

/-! ## Claim theorems: device selection -/

/-- C3: with an explicit index set, `select_device` returns the device at that
position if and only if that position exists in the list and the device
reports at least one supported input configuration; in every other case it
returns nothing (no fallback to name matching, loopback heuristics, or
first-usable-device — the result is determined by the indexed position alone,
whatever `device_name` is). -/
theorem c3_explicit_index_selection (devices : List Device) (i : ℕ)
    (dn : Option String) (d : Device) :
    select_device devices (some i) dn = some d ↔
      devices[i]? = some d ∧ usable d = true := by
  simp only [select_device, Option.filter_eq_some, Option.mem_def]

/-- C5: with an explicit name set (and no explicit index), `select_device`
returns `some d` exactly when `d` is the first device in list order whose
name query succeeds with exactly the given name and which reports at least
one supported input configuration; it returns nothing exactly when no device
satisfies both conditions. -/
theorem c5_explicit_name_selection (devices : List Device) (nm : String) (d : Device) :
    (select_device devices none (some nm) = some d ↔
      ∃ i, firstSuchThat (nameMatches nm) devices i d) ∧
    (select_device devices none (some nm) = none ↔
      ∀ x ∈ devices, nameMatches nm x = false) := by
  constructor
  · simpa only [select_device] using find?_iff_firstSuchThat (nameMatches nm) devices d
  · simp only [select_device, List.find?_eq_none, Bool.not_eq_true]

/-- C4: with neither explicit index nor explicit name, `select_device` returns
the first device in list order whose (successfully queried) name
case-insensitively contains a loopback marker, even if earlier non-matching
devices exist; if no device carries a marker it returns the first device with
at least one supported input configuration; if there is no such device either
it returns nothing. -/
theorem c4_default_selection (devices : List Device) (d : Device) :
    (select_device devices none none = some d ↔
      (∃ i, firstSuchThat loopbackPred devices i d) ∨
        ((∀ x ∈ devices, loopbackPred x = false) ∧
          ∃ i, firstSuchThat usable devices i d)) ∧
    (select_device devices none none = none ↔
      (∀ x ∈ devices, loopbackPred x = false) ∧ ∀ x ∈ devices, usable x = false) := by
  have hsel : select_device devices none none =
      (devices.find? loopbackPred).orElse fun _ => devices.find? usable := by
    simp only [select_device, find_loopback_eq_find?]
  cases hlb : devices.find? loopbackPred with
  | some d' =>
    have hne : ¬ ∀ x ∈ devices, loopbackPred x = false := by
      intro hall
      rw [List.find?_eq_none.mpr (by simpa using hall)] at hlb
      exact Option.noConfusion hlb
    constructor
    · rw [hsel, hlb]
      show some d' = some d ↔ _
      constructor
      · intro h
        have hd : d' = d := Option.some.inj h
        subst hd
        exact Or.inl ((find?_iff_firstSuchThat _ _ _).mp hlb)
      · rintro (h | ⟨hall, _⟩)
        · have := (find?_iff_firstSuchThat _ _ _).mpr h
          rw [hlb] at this
          exact this
        · exact absurd hall hne
    · rw [hsel, hlb]
      constructor
      · intro h
        exact Option.noConfusion h
      · rintro ⟨hall, _⟩
        exact absurd hall hne
  | none =>
    have hall : ∀ x ∈ devices, loopbackPred x = false := by
      have := List.find?_eq_none.mp hlb
      simpa using this
    constructor
    · rw [hsel, hlb]
      show devices.find? usable = some d ↔ _
      rw [find?_iff_firstSuchThat]
      constructor
      · exact fun h => Or.inr ⟨hall, h⟩
      · rintro (⟨i, hget, hp, _⟩ | ⟨_, h⟩)
        · have := hall d (List.mem_iff_getElem?.mpr ⟨i, hget⟩)
          rw [hp] at this
          exact absurd this (by simp)
        · exact h
    · rw [hsel, hlb]
      show devices.find? usable = none ↔ _
      rw [List.find?_eq_none]
      constructor
      · exact fun h => ⟨hall, by simpa using h⟩
      · rintro ⟨_, h⟩
        simpa using h

/-- C8: a device whose `name()` or `supported_input_configs()` query fails is
treated as "not a match" by the check that queried it, is skipped rather than
turned into an error (selection still produces an `Option`, never a failure),
and never prevents a later device of the list from being selected. -/
theorem c8_query_failures_skipped (bad : Device) (rest : List Device) (nm : String) :
    (bad.name = none →
      find_loopback_device (bad :: rest) = find_loopback_device rest) ∧
    (bad.name = none →
      select_device (bad :: rest) none (some nm) = select_device rest none (some nm)) ∧
    (bad.supportedInputConfigs = none →
      select_device (bad :: rest) none (some nm) = select_device rest none (some nm)) ∧
    (bad.name = none → bad.supportedInputConfigs = none →
      select_device (bad :: rest) none none = select_device rest none none) ∧
    (bad.supportedInputConfigs = none →
      select_device (bad :: rest) (some 0) (some nm) = none) := by
  refine ⟨fun hn => ?_, fun hn => ?_, fun hc => ?_, fun hn hc => ?_, fun hc => ?_⟩
  · rw [find_loopback_device, hn]
  · simp only [select_device]
    exact List.find?_cons_of_neg _ (by simp [nameMatches, hn])
  · simp only [select_device]
    exact List.find?_cons_of_neg _ (by simp [nameMatches, usable, hc])
  · simp only [select_device, find_loopback_eq_find?]
    rw [List.find?_cons_of_neg _ (by simp [loopbackPred, hn]),
      List.find?_cons_of_neg _ (by simp [usable, hc])]
  · simp only [select_device, List.getElem?_cons_zero, Option.filter_some]
    simp [usable, hc]

/-- Concrete exercise of C8: a device failing both queries, placed first,
changes nothing about selection over the remaining devices. -/
theorem c8_query_failures_skipped_witness :
    find_loopback_device [⟨none, none⟩, ⟨some "Loopback", some 1⟩] =
        find_loopback_device [⟨some "Loopback", some 1⟩] ∧
      select_device [⟨none, none⟩, ⟨some "Mic", some 1⟩] none (some "Mic") =
        select_device [⟨some "Mic", some 1⟩] none (some "Mic") ∧
      select_device [⟨none, none⟩, ⟨some "Mic", some 1⟩] none none =
        select_device [⟨some "Mic", some 1⟩] none none ∧
      select_device [⟨none, none⟩, ⟨some "Mic", some 1⟩] (some 0) (some "Mic") = none :=
  ⟨(c8_query_failures_skipped ⟨none, none⟩ [⟨some "Loopback", some 1⟩] "Mic").1 rfl,
    (c8_query_failures_skipped ⟨none, none⟩ [⟨some "Mic", some 1⟩] "Mic").2.1 rfl,
    (c8_query_failures_skipped ⟨none, none⟩ [⟨some "Mic", some 1⟩] "Mic").2.2.2.1 rfl rfl,
    (c8_query_failures_skipped ⟨none, none⟩ [⟨some "Mic", some 1⟩] "Mic").2.2.2.2 rfl⟩

/-! ## Claim C7: the startup volume gate -/

/-- C7 counterexample: the claim "every initial volume argument that is not a
value in [0.0, 1.0] makes the process exit nonzero before streaming" is false
at the input `NaN` (reachable as `--volume NaN`, which Rust's `f32` parser
accepts): NaN is not a value of `[0.0, 1.0]`, yet both comparisons of the
guard `args.volume < 0.0 || args.volume > 1.0` are false for NaN, so startup
proceeds to device selection instead of exiting. -/
theorem c7_counterexample :
    (∀ q : ℚ, FpVal.nan ≠ FpVal.finite q) ∧
      startup FpVal.nan [] none none = .continued none := by
  exact ⟨fun q h => FpVal.noConfusion h, rfl⟩

/-- C7 (amended): every initial volume argument that compares less than 0.0 or
greater than 1.0 — that is, every out-of-range finite value, `+∞` and `-∞`,
each reachable through Rust's `f32` argument parser — makes the process exit
nonzero at the volume check, before device selection, socket setup, or stream
construction.  NaN compares neither way and is the one excluded argument. -/
theorem c7_amended_volume_gate (v : FpVal) (devices : List Device)
    (di : Option ℕ) (dn : Option String)
    (h : (∃ q : ℚ, v = .finite q ∧ (q < 0 ∨ 1 < q)) ∨ v = .inf ∨ v = .negInf) :
    startup v devices di dn = .exitInvalidVolume := by
  rcases h with ⟨q, rfl, h⟩ | rfl | rfl
  · rw [startup, if_pos]
    rcases h with h | h
    · simp only [volumeGateRejects, flt, Bool.or_eq_true, decide_eq_true_eq]
      exact Or.inl h
    · simp only [volumeGateRejects, flt, Bool.or_eq_true, decide_eq_true_eq]
      exact Or.inr h
  · rw [startup, if_pos (by decide)]
  · rw [startup, if_pos (by decide)]

/-- Concrete exercise of the amended C7: volume arguments `1.5`, `+∞` and
`-∞` all exit at the gate. -/
theorem c7_amended_volume_gate_witness :
    startup (.finite (3 / 2)) [] none none = .exitInvalidVolume ∧
      startup .inf [] none none = .exitInvalidVolume ∧
      startup .negInf [] none none = .exitInvalidVolume :=
  ⟨c7_amended_volume_gate (.finite (3 / 2)) [] none none
      (Or.inl ⟨3 / 2, rfl, Or.inr (by norm_num)⟩),
    c7_amended_volume_gate .inf [] none none (Or.inr (Or.inl rfl)),
    c7_amended_volume_gate .negInf [] none none (Or.inr (Or.inr rfl))⟩

/-! ## Helper lemmas: rationals, truncation, rounding -/

theorem truncQ_intCast (z : ℤ) : truncQ (z : ℚ) = z := by
  rw [truncQ]
  split_ifs with h
  · exact Int.floor_intCast z
  · exact Int.ceil_intCast z

theorem truncQ_le (q : ℚ) (b : ℤ) (h : q ≤ (b : ℚ)) : truncQ q ≤ b := by
  rw [truncQ]
  split_ifs with h0
  · have := Int.floor_le_floor h
    rwa [Int.floor_intCast] at this
  · have := Int.ceil_le_ceil h
    rwa [Int.ceil_intCast] at this

theorem le_truncQ (q : ℚ) (b : ℤ) (h : (b : ℚ) ≤ q) : b ≤ truncQ q := by
  rw [truncQ]
  split_ifs with h0
  · have := Int.floor_le_floor h
    rwa [Int.floor_intCast] at this
  · have := Int.ceil_le_ceil h
    rwa [Int.ceil_intCast] at this

theorem fmul_finite (a b : ℚ) : fmul (.finite a) (.finite b) = .finite (a * b) := rfl

/-- The saturating `as i16` cast coincides with plain truncation on the
in-range products the pipeline produces. -/
theorem process_core_finite (x : ℚ) :
    castToI16 (fmul (fclamp (.finite x) (-1) 1) (.finite 32767)) =
      truncQ (max (-1) (min x 1) * 32767) := by
  have hc1 : (-1 : ℚ) ≤ max (-1) (min x 1) := le_max_left _ _
  have hc2 : max (-1 : ℚ) (min x 1) ≤ 1 := max_le (by norm_num) (min_le_right _ _)
  simp only [fclamp, fmul, castToI16]
  have hb1 : (-32767 : ℤ) ≤ truncQ (max (-1) (min x 1) * 32767) :=
    le_truncQ _ _ (by push_cast; nlinarith)
  have hb2 : truncQ (max (-1 : ℚ) (min x 1) * 32767) ≤ 32767 :=
    truncQ_le _ _ (by push_cast; nlinarith)
  rw [min_eq_right hb2, max_eq_right (by omega)]

/-- Range of the common tail of both pipeline paths, for every possible
clamped input (finite, infinite or NaN). -/
theorem process_core_range (x : FpVal) :
    -32767 ≤ castToI16 (fmul (fclamp x (-1) 1) (.finite 32767)) ∧
      castToI16 (fmul (fclamp x (-1) 1) (.finite 32767)) ≤ 32767 := by
  cases x with
  | nan => simp [fclamp, fmul, castToI16]
  | inf =>
    simp only [fclamp, fmul, castToI16]
    rw [show ((1 : ℚ) * 32767) = ((32767 : ℤ) : ℚ) by norm_num, truncQ_intCast]
    norm_num
  | negInf =>
    simp only [fclamp, fmul, castToI16]
    rw [show ((-1 : ℚ) * 32767) = ((-32767 : ℤ) : ℚ) by norm_num, truncQ_intCast]
    norm_num
  | finite q =>
    rw [process_core_finite]
    have hc1 : (-1 : ℚ) ≤ max (-1) (min q 1) := le_max_left _ _
    have hc2 : max (-1 : ℚ) (min q 1) ≤ 1 := max_le (by norm_num) (min_le_right _ _)
    constructor
    · exact le_truncQ _ _ (by push_cast; nlinarith)
    · exact truncQ_le _ _ (by push_cast; nlinarith)

theorem foldl_append_flatten {α β : Type} (f : α → List β) (l : List α) (init : List β) :
    l.foldl (fun b a => b ++ f a) init = init ++ (l.map f).flatten := by
  induction l generalizing init with
  | nil => simp
  | cons x xs ih => simp [ih, List.append_assoc]

theorem twoByte_flatten_length {α : Type} (g : α → ℤ) (l : List α) :
    ((l.map fun s => i16ToLeBytes (g s)).flatten).length = 2 * l.length := by
  induction l with
  | nil => simp
  | cons x xs ih =>
    simp only [List.map_cons, List.flatten_cons, List.length_append, ih, List.length_cons]
    rw [show (i16ToLeBytes (g x)).length = 2 from rfl]
    ring

/-! ## Claim theorems: sample pipeline -/

/-- C1: for every float input sample `s` and snapshotted volume `v`, the
pipeline emits the little-endian 2-byte encoding of the signed 16-bit integer
obtained by clamping `s * v` to `[-1, 1]`, scaling by the signed 16-bit range
and truncating (`specSampleBytes`, written from the spec's words); a 16-bit
integer input sample `n` is first normalized to `n / 32767` (reading the
spec's "maximum magnitude of the signed 16-bit range" as `i16::MAX`, the
constant the code divides by); and a float sample `1.0` at volume `0.5`
encodes to `16383`. -/
theorem c1_sample_transform (v s : ℚ) (n : ℤ) :
    i16ToLeBytes (processSampleF32 (.finite v) (.finite s)) = specSampleBytes v s ∧
      i16ToLeBytes (processSampleI16 (.finite v) n) =
        specSampleBytes v ((n : ℚ) / 32767) ∧
      processSampleF32 (.finite (1 / 2)) (.finite 1) = 16383 := by
  refine ⟨?_, ?_, ?_⟩
  · rw [specSampleBytes]
    congr 1
    simp only [processSampleF32, fmul_finite]
    rw [process_core_finite]
    rfl
  · rw [specSampleBytes]
    congr 1
    simp only [processSampleI16, fmul_finite]
    rw [process_core_finite]
    rfl
  · simp only [processSampleF32, fmul_finite]
    rw [process_core_finite]
    rw [show max (-1 : ℚ) (min (1 * (1 / 2)) 1) = 1 / 2 from by norm_num]
    rw [truncQ, if_pos (by norm_num)]
    norm_num

/-- C6: each pipeline invocation produces a byte buffer of length exactly
twice the number of input samples, consisting of the per-sample 2-byte
little-endian encodings in input order; on an empty input buffer the produced
buffer is empty and no send is attempted. -/
theorem c6_buffer_shape (vol : FpVal) (data : List FpVal) (idata : List ℤ) :
    (callbackF32 vol data).1 =
        (data.map fun s => i16ToLeBytes (processSampleF32 vol s)).flatten ∧
      (callbackF32 vol data).1.length = 2 * data.length ∧
      (callbackI16 vol idata).1 =
        (idata.map fun s => i16ToLeBytes (processSampleI16 vol s)).flatten ∧
      (callbackI16 vol idata).1.length = 2 * idata.length ∧
      (callbackF32 vol []).1 = [] ∧ (callbackF32 vol []).2 = false ∧
      (callbackI16 vol []).1 = [] ∧ (callbackI16 vol []).2 = false := by
  have hf : (callbackF32 vol data).1 =
      (data.map fun s => i16ToLeBytes (processSampleF32 vol s)).flatten := by
    simp only [callbackF32]
    rw [foldl_append_flatten]
    simp
  have hi : (callbackI16 vol idata).1 =
      (idata.map fun s => i16ToLeBytes (processSampleI16 vol s)).flatten := by
    simp only [callbackI16]
    rw [foldl_append_flatten]
    simp
  refine ⟨hf, ?_, hi, ?_, rfl, rfl, rfl, rfl⟩
  · rw [hf, twoByte_flatten_length]
  · rw [hi, twoByte_flatten_length]

/-- C10: whatever value the volume cell holds (finite of any size, infinite,
or NaN) and whatever the input sample is, every 16-bit sample either pipeline
path emits lies in `[-32767, 32767]`; the value `-32768` is never produced,
and in particular an `i16` input sample of `-32768` at volume `1.0` encodes
as `-32767`. -/
theorem c10_output_range (vol s : FpVal) (n : ℤ) :
    (-32767 ≤ processSampleF32 vol s ∧ processSampleF32 vol s ≤ 32767) ∧
      (-32767 ≤ processSampleI16 vol n ∧ processSampleI16 vol n ≤ 32767) ∧
      processSampleI16 (.finite 1) (-32768) = -32767 := by
  refine ⟨process_core_range _, process_core_range _, ?_⟩
  simp only [processSampleI16, fmul_finite]
  rw [process_core_finite]
  rw [min_eq_left (by push_cast; norm_num :
    (((-32768 : ℤ) : ℚ)) / 32767 * 1 ≤ 1)]
  rw [max_eq_left (by push_cast; norm_num :
    (((-32768 : ℤ) : ℚ)) / 32767 * 1 ≤ -1)]
  rw [show ((-1 : ℚ) * 32767) = ((-32767 : ℤ) : ℚ) from by norm_num, truncQ_intCast]

/-! ## Helper lemmas: round-to-nearest and the unit-interval bound -/

theorem rne_nonneg (q : ℚ) (h : 0 ≤ q) : 0 ≤ rne q := by
  have hf : 0 ≤ ⌊q⌋ := Int.floor_nonneg.mpr h
  simp only [rne]
  split_ifs <;> omega

theorem rne_cast_le (q : ℚ) : (rne q : ℚ) ≤ q + 1 / 2 := by
  have hf : (⌊q⌋ : ℚ) ≤ q := Int.floor_le q
  simp only [rne]
  split_ifs with h1 h2 h3 <;> push_cast <;> linarith

theorem rne_intCast (z : ℤ) : rne (z : ℚ) = z := by
  simp only [rne, Int.floor_intCast, sub_self]
  rw [if_pos (by norm_num)]

theorem negExpAux_spec (fuel : ℕ) : ∀ (acc : ℕ) (q : ℚ), 0 ≤ q →
    q * 2 ^ acc < 2 → 1 ≤ q * 2 ^ (acc + fuel) →
    1 ≤ q * 2 ^ negExpAux fuel acc q ∧ q * 2 ^ negExpAux fuel acc q < 2 := by
  induction fuel with
  | zero =>
    intro acc q hq h2 h1
    rw [Nat.add_zero] at h1
    exact ⟨by simpa [negExpAux] using h1, by simpa [negExpAux] using h2⟩
  | succ fuel ih =>
    intro acc q hq h2 h1
    rw [negExpAux]
    split_ifs with h
    · exact ⟨h, h2⟩
    · push_neg at h
      refine ih (acc + 1) q hq ?_ ?_
      · have heq : q * 2 ^ (acc + 1) = q * 2 ^ acc * 2 := by ring
        rw [heq]
        linarith
      · rw [show acc + 1 + fuel = acc + (fuel + 1) from by omega]
        exact h1

theorem roundF32pos_unit (q : ℚ) (h0 : 0 ≤ q) (h1 : q ≤ 1) :
    0 ≤ roundF32pos q ∧ roundF32pos q ≤ 1 := by
  rw [roundF32pos]
  split_ifs with hsub
  · constructor
    · have hr := rne_nonneg (q * 2 ^ 149) (mul_nonneg h0 (by positivity))
      exact div_nonneg (by exact_mod_cast hr) (by positivity)
    · have hx : q * 2 ^ 149 < 2 ^ 23 := by
        have heq : q * 2 ^ 149 = q * 2 ^ 126 * 2 ^ 23 := by ring
        rw [heq]
        calc q * 2 ^ 126 * 2 ^ 23 < 1 * 2 ^ 23 := by
              exact mul_lt_mul_of_pos_right hsub (by positivity)
        _ = 2 ^ 23 := one_mul _
      have h2 := rne_cast_le (q * 2 ^ 149)
      rw [div_le_one (by positivity)]
      calc (rne (q * 2 ^ 149) : ℚ) ≤ q * 2 ^ 149 + 1 / 2 := h2
      _ ≤ 2 ^ 23 + 1 / 2 := by linarith
      _ ≤ 2 ^ 149 := by norm_num
  · push_neg at hsub
    have hlt2 : q * 2 ^ (0 : ℕ) < 2 := by
      simpa using lt_of_le_of_lt h1 one_lt_two
    have hge1 : (1 : ℚ) ≤ q * 2 ^ (0 + 127 : ℕ) := by
      have heq : q * 2 ^ (0 + 127 : ℕ) = q * 2 ^ 126 * 2 := by ring
      rw [heq]
      linarith
    obtain ⟨hs1, hs2⟩ := negExpAux_spec 127 0 q h0 hlt2 hge1
    rcases Nat.eq_zero_or_pos (negExpAux 127 0 q) with hn | hn
    · have hq1 : q = 1 := by
        refine le_antisymm h1 ?_
        rw [hn] at hs1
        simpa using hs1
      subst hq1
      rw [show findNegExp (1 : ℚ) = negExpAux 127 0 1 from rfl, hn]
      rw [show (1 : ℚ) * 2 ^ (23 + 0) = ((2 ^ 23 : ℤ) : ℚ) from by push_cast; ring]
      rw [rne_intCast]
      norm_num
    · rw [show findNegExp q = negExpAux 127 0 q from rfl]
      constructor
      · have hr := rne_nonneg (q * 2 ^ (23 + negExpAux 127 0 q))
          (mul_nonneg h0 (by positivity))
        exact div_nonneg (by exact_mod_cast hr) (by positivity)
      · have hx : q * 2 ^ (23 + negExpAux 127 0 q) < 2 ^ 24 := by
          have heq : q * 2 ^ (23 + negExpAux 127 0 q) =
              q * 2 ^ negExpAux 127 0 q * 2 ^ 23 := by ring
          rw [heq]
          calc q * 2 ^ negExpAux 127 0 q * 2 ^ 23 < 2 * 2 ^ 23 := by
                exact mul_lt_mul_of_pos_right hs2 (by positivity)
          _ = 2 ^ 24 := by norm_num
        have hle : rne (q * 2 ^ (23 + negExpAux 127 0 q)) ≤ 2 ^ 24 := by
          have hcast : (rne (q * 2 ^ (23 + negExpAux 127 0 q)) : ℚ) <
              ((2 ^ 24 + 1 : ℤ) : ℚ) := by
            have := rne_cast_le (q * 2 ^ (23 + negExpAux 127 0 q))
            push_cast
            linarith
          have hlt : rne (q * 2 ^ (23 + negExpAux 127 0 q)) < 2 ^ 24 + 1 := by
            exact_mod_cast hcast
          omega
        rw [div_le_one (by positivity)]
        calc (rne (q * 2 ^ (23 + negExpAux 127 0 q)) : ℚ) ≤ ((2 ^ 24 : ℤ) : ℚ) := by
              exact_mod_cast hle
        _ = 2 ^ 24 := by push_cast; ring
        _ ≤ 2 ^ (23 + negExpAux 127 0 q) := by
              exact pow_le_pow_right₀ (by norm_num) (by omega)

theorem roundF32_unit (q : ℚ) (h0 : 0 ≤ q) (h1 : q ≤ 1) :
    0 ≤ roundF32 q ∧ roundF32 q ≤ 1 := by
  rw [roundF32, if_neg (not_lt.mpr h0)]
  exact roundF32pos_unit q h0 h1

/-! ## Helper lemmas: control listener -/

/-- Every step of the control listener either leaves the volume unchanged or
stores a finite value in `[0, 1]`. -/
theorem controlStep_cases (vol : FpVal) (dg : List ℕ) :
    controlStep vol dg = vol ∨ inUnit (controlStep vol dg) := by
  rw [controlStep]
  split_ifs with h8 hc
  · right
    rcases hv : decodeF64 (leBytesToNat dg) with q | _ | _ | _ <;> rw [hv] at hc
    · simp only [fle, Bool.and_eq_true, decide_eq_true_eq] at hc
      exact ⟨roundF32 q, rfl, roundF32_unit q hc.1 hc.2⟩
    · simp [fle] at hc
    · simp [fle] at hc
    · simp [fle] at hc
  · exact Or.inl rfl
  · exact Or.inl rfl

/-! ## Claim theorems: control listener -/

/-- C9: every write the control listener performs stores a finite value of
`[0, 1]` (each step either leaves the volume untouched or stores such a
value); a datagram decoding to NaN never changes the volume, since the range
comparison is false for NaN; hence a volume starting in `[0, 1]` stays in
`[0, 1]` under any sequence of control datagrams. -/
theorem c9_volume_invariant (v0 vol : FpVal) (dgs : List (List ℕ)) (dg : List ℕ) :
    (controlStep vol dg = vol ∨ inUnit (controlStep vol dg)) ∧
      (decodeF64 (leBytesToNat dg) = .nan → controlStep vol dg = vol) ∧
      (inUnit v0 → inUnit (dgs.foldl controlStep v0)) := by
  refine ⟨controlStep_cases vol dg, ?_, ?_⟩
  · intro hnan
    rw [controlStep]
    split_ifs with h8 hc
    · rw [hnan] at hc
      simp [fle] at hc
    · rfl
    · rfl
  · induction dgs generalizing v0 with
    | nil => exact fun h => h
    | cons d ds ih =>
      intro h
      rw [List.foldl_cons]
      apply ih
      rcases controlStep_cases v0 d with heq | hu
      · rwa [heq]
      · exact hu

/-- Concrete exercise of C9: an all-ones datagram decodes to NaN and is
ignored, and a volume of `1` stays in `[0, 1]` across a sequence containing
garbage, out-of-range and valid datagrams. -/
theorem c9_volume_invariant_witness :
    controlStep (.finite (1 / 2)) [255, 255, 255, 255, 255, 255, 255, 255] =
        .finite (1 / 2) ∧
      inUnit ([[255, 255, 255, 255, 255, 255, 255, 255], [1, 2, 3],
          [0, 0, 0, 0, 0, 0, 224, 63]].foldl controlStep (.finite 1)) := by
  constructor
  · exact (c9_volume_invariant (.finite 1) (.finite (1 / 2)) []
      [255, 255, 255, 255, 255, 255, 255, 255]).2.1 (by decide)
  · exact (c9_volume_invariant (.finite 1) (.finite 1)
      [[255, 255, 255, 255, 255, 255, 255, 255], [1, 2, 3],
        [0, 0, 0, 0, 0, 0, 224, 63]] []).2.2 ⟨1, rfl, by norm_num, by norm_num⟩

end AudioStreamer
